import Mathlib

/-
Verification of the Wordle solver core (wordle_solver.py): the constraint
filter get_poss_words, the entropy scorer calc_guess_entropy, and the
ranking routine rank_words, embedded shallowly over lists of natural
numbers (the unicode code points produced by get_unicode in the source).
A word and a color string are lists of code points; a word list is a list
of words.  numpy's whole-array boolean masking is rendered as per-word
predicates applied with List.filter, in the same order as the source.
-/

namespace WordleSolver

/-- Code point of the green marker, ord "g" in the source. -/
def G_UNICODE : ℕ := 103

/-- Code point of the yellow marker, ord "y" in the source. -/
def Y_UNICODE : ℕ := 121

/-- Code point of the black marker, ord "b" in the source. -/
def B_UNICODE : ℕ := 98

/-- All color tuples of a given length over the three markers, in the
order produced by itertools.product (first position varies slowest). -/
def colorTuples : ℕ → List (List ℕ)
  | 0 => [[]]
  | n + 1 =>
      [G_UNICODE, Y_UNICODE, B_UNICODE].flatMap fun c => (colorTuples n).map (c :: ·)

/-- POSSIBLE_COLORS of the source: every feedback pattern of length 5. -/
def POSSIBLE_COLORS : List (List ℕ) := colorTuples 5

/-- Green rule of get_poss_words: the word agrees with the guess at every
position whose color is green (green_word_mask in the source). -/
def greenOk (guess colors word : List ℕ) : Bool :=
  (colors.zip (guess.zip word)).all fun p => !(p.1 == G_UNICODE) || (p.2.1 == p.2.2)

/-- Yellow-and-black positional rule (letter_not_at_index_mask): at every
non-green position the word letter differs from the guess letter. -/
def notAtIndexOk (guess colors word : List ℕ) : Bool :=
  (colors.zip (guess.zip word)).all fun p => (p.1 == G_UNICODE) || !(p.2.1 == p.2.2)

/-- The guess letters at yellow positions, guess[colors == Y_UNICODE]. -/
def yellow_letters (guess colors : List ℕ) : List ℕ :=
  ((colors.zip guess).filter fun p => p.1 == Y_UNICODE).map Prod.snd

/-- The guess letters at black positions, guess[colors == B_UNICODE]. -/
def black_letters (guess colors : List ℕ) : List ℕ :=
  ((colors.zip guess).filter fun p => p.1 == B_UNICODE).map Prod.snd

/-- One row of words[:, ~green_letter_mask]: the letters of a word at the
non-green positions. -/
def notGreenLetters (colors word : List ℕ) : List ℕ :=
  ((colors.zip word).filter fun p => !(p.1 == G_UNICODE)).map Prod.snd

/-- Yellow counting rule: for every distinct yellow guess letter the word
holds at least as many copies at non-green positions as the guess holds at
yellow positions (yellow_letter_counts >= yellow_letter_count_limits). -/
def yellowOk (guess colors word : List ℕ) : Bool :=
  (yellow_letters guess colors).dedup.all fun c =>
    decide (List.count c (yellow_letters guess colors) ≤
      List.count c (notGreenLetters colors word))

/-- Black counting rule: for every distinct black guess letter the word
holds at most as many copies at non-green positions as the guess holds at
yellow positions (black_letter_counts <= yellow_black_letter_count). -/
def blackOk (guess colors word : List ℕ) : Bool :=
  (black_letters guess colors).dedup.all fun c =>
    decide (List.count c (notGreenLetters colors word) ≤
      List.count c (yellow_letters guess colors))

/-- get_poss_words: the four boolean masks applied in source order. -/
def get_poss_words (guess colors : List ℕ) (words : List (List ℕ)) : List (List ℕ) :=
  (((words.filter (greenOk guess colors)).filter
        (notAtIndexOk guess colors)).filter
      (yellowOk guess colors)).filter
    (blackOk guess colors)

/-- calc_guess_entropy: the loop over POSSIBLE_COLORS accumulating
(n_poss_words / words.shape[0]) * n_poss_words.  The division by
words.shape[0] raises ZeroDivisionError in Python when the word list is
empty; that failure is modelled by none. -/
def calc_guess_entropy (guess : List ℕ) (words : List (List ℕ)) : Option ℚ :=
  if words.length = 0 then none
  else
    some (POSSIBLE_COLORS.foldl
      (fun acc colors =>
        acc + ((get_poss_words guess colors words).length : ℚ) / (words.length : ℚ) *
          ((get_poss_words guess colors words).length : ℚ))
      0)

/-- Collecting the per-guess scores (the AsyncResult.get loop): none as
soon as one evaluation failed. -/
def optionList : List (Option ℚ) → Option (List ℚ)
  | [] => some []
  | none :: _ => none
  | some q :: rest => (optionList rest).map (q :: ·)

/-- Comparison of (index, score) pairs by score. -/
def scoreLe (a b : ℕ × ℚ) : Prop := a.2 ≤ b.2

instance : DecidableRel scoreLe := fun a b => inferInstanceAs (Decidable (a.2 ≤ b.2))

instance : IsTotal (ℕ × ℚ) scoreLe := ⟨fun a b => le_total a.2 b.2⟩

instance : IsTrans (ℕ × ℚ) scoreLe := ⟨fun _ _ _ h1 h2 => le_trans h1 h2⟩

/-- np.argsort modelled as a stable argsort: positions ordered by value,
equal values kept in position order. -/
def argsort (xs : List ℚ) : List ℕ :=
  (xs.enum.insertionSort scoreLe).map Prod.fst

/-- rank_words: score every guess against the whole word list, then order
words and scores by argsort of the scores (words[sorted_inds],
pred_remain_words[sorted_inds]). -/
def rank_words (words : List (List ℕ)) : Option (List (List ℕ) × List ℚ) :=
  match optionList (words.map fun guess => calc_guess_entropy guess words) with
  | none => none
  | some pred =>
      some ((argsort pred).map (fun i => words.getD i []),
        (argsort pred).map (fun i => pred.getD i 0))

/-- The conjunction of the four masks of get_poss_words for one word. -/
def keepPred (guess colors word : List ℕ) : Bool :=
  greenOk guess colors word && notAtIndexOk guess colors word &&
    yellowOk guess colors word && blackOk guess colors word

lemma get_poss_words_eq_filter (guess colors : List ℕ) (words : List (List ℕ)) :
    get_poss_words guess colors words = words.filter (keepPred guess colors) := by
  unfold get_poss_words
  rw [List.filter_filter, List.filter_filter, List.filter_filter]
  refine List.filter_congr fun w _ => ?_
  unfold keepPred
  cases greenOk guess colors w <;> cases notAtIndexOk guess colors w <;>
    cases yellowOk guess colors w <;> cases blackOk guess colors w <;> rfl

lemma mem_get_poss_words {guess colors word : List ℕ} {words : List (List ℕ)} :
    word ∈ get_poss_words guess colors words ↔
      word ∈ words ∧ greenOk guess colors word = true ∧
        notAtIndexOk guess colors word = true ∧ yellowOk guess colors word = true ∧
        blackOk guess colors word = true := by
  rw [get_poss_words_eq_filter, List.mem_filter]
  unfold keepPred
  simp [and_assoc]

/-- Claim C7: filtering twice by the same guess and feedback equals
filtering once. -/
theorem claim7_idempotent (guess colors : List ℕ) (words : List (List ℕ)) :
    get_poss_words guess colors (get_poss_words guess colors words) =
      get_poss_words guess colors words := by
  simp only [get_poss_words_eq_filter, List.filter_filter]
  exact List.filter_congr fun w _ => by cases keepPred guess colors w <;> rfl

lemma zip_self_eq {α : Type} : ∀ (l : List α) (p : α × α), p ∈ l.zip l → p.1 = p.2 := by
  intro l
  induction l with
  | nil => intro p hp; simp at hp
  | cons a t ih =>
      intro p hp
      rw [List.zip_cons_cons] at hp
      rcases List.mem_cons.mp hp with rfl | hp
      · rfl
      · exact ih p hp

lemma yellow_letters_of_no_yellow {guess colors : List ℕ}
    (h : ∀ x ∈ colors, x ≠ Y_UNICODE) : yellow_letters guess colors = [] := by
  unfold yellow_letters
  rw [List.filter_eq_nil_iff.mpr ?_, List.map_nil]
  intro p hp
  have h1 := (List.of_mem_zip hp).1
  simpa using h p.1 h1

lemma black_letters_of_no_black {guess colors : List ℕ}
    (h : ∀ x ∈ colors, x ≠ B_UNICODE) : black_letters guess colors = [] := by
  unfold black_letters
  rw [List.filter_eq_nil_iff.mpr ?_, List.map_nil]
  intro p hp
  have h1 := (List.of_mem_zip hp).1
  simpa using h p.1 h1

/-- Claim C8: a guess that is in the candidate set survives filtering by
itself with the all-green feedback pattern. -/
theorem claim8_self_consistency (guess : List ℕ) (words : List (List ℕ))
    (h : guess ∈ words) :
    guess ∈ get_poss_words guess (List.replicate 5 G_UNICODE) words := by
  rw [mem_get_poss_words]
  refine ⟨h, ?_, ?_, ?_, ?_⟩
  · unfold greenOk
    rw [List.all_eq_true]
    intro p hp
    have h2 := zip_self_eq guess p.2 (List.of_mem_zip hp).2
    simp [h2]
  · unfold notAtIndexOk
    rw [List.all_eq_true]
    intro p hp
    have h1 := List.eq_of_mem_replicate (List.of_mem_zip hp).1
    simp [h1]
  · unfold yellowOk
    rw [yellow_letters_of_no_yellow]
    · rfl
    · intro x hx
      rw [List.eq_of_mem_replicate hx]
      decide
  · unfold blackOk
    rw [black_letters_of_no_black]
    · rfl
    · intro x hx
      rw [List.eq_of_mem_replicate hx]
      decide

/-- Witness for claim C8 at a concrete input. -/
theorem claim8_witness :
    [99, 114, 97, 110, 101] ∈ get_poss_words [99, 114, 97, 110, 101]
      (List.replicate 5 G_UNICODE) [[99, 114, 97, 122, 121], [99, 114, 97, 110, 101]] :=
  claim8_self_consistency _ _ (by decide)

/-- The PRESENT-letter lower bound as the spec states it: each distinct
letter at a PRESENT position of the guess occurs in the word, restricted
to non-EXACT positions, at least as often as among the guess's PRESENT
positions. -/
def specPresentBound (guess colors word : List ℕ) : Prop :=
  ∀ c ∈ yellow_letters guess colors,
    List.count c (yellow_letters guess colors) ≤ List.count c (notGreenLetters colors word)

/-- The ABSENT-letter upper bound as the spec states it: each distinct
letter at an ABSENT position of the guess occurs in the word, restricted
to non-EXACT positions, no more often than among the guess's PRESENT
positions. -/
def specAbsentBound (guess colors word : List ℕ) : Prop :=
  ∀ c ∈ black_letters guess colors,
    List.count c (notGreenLetters colors word) ≤ List.count c (yellow_letters guess colors)

lemma yellowOk_iff (guess colors word : List ℕ) :
    yellowOk guess colors word = true ↔ specPresentBound guess colors word := by
  unfold yellowOk specPresentBound
  simp [List.all_eq_true, List.mem_dedup]

lemma blackOk_iff (guess colors word : List ℕ) :
    blackOk guess colors word = true ↔ specAbsentBound guess colors word := by
  unfold blackOk specAbsentBound
  simp [List.all_eq_true, List.mem_dedup]

/-- Claim C2: every word kept by get_poss_words satisfies the
PRESENT-letter lower bound, and every candidate violating it is excluded. -/
theorem claim2_present_lower_bound (guess colors word : List ℕ) (words : List (List ℕ)) :
    (word ∈ get_poss_words guess colors words → specPresentBound guess colors word) ∧
    (word ∈ words → ¬ specPresentBound guess colors word →
      word ∉ get_poss_words guess colors words) := by
  constructor
  · intro hw
    exact (yellowOk_iff guess colors word).mp (mem_get_poss_words.mp hw).2.2.2.1
  · intro _ hnb hw
    exact hnb ((yellowOk_iff guess colors word).mp (mem_get_poss_words.mp hw).2.2.2.1)

set_option maxRecDepth 4000 in
/-- Witness for claim C2: guess "abcde" with feedback ybbbb keeps "xaxxx",
which indeed holds one a away from green positions. -/
theorem claim2_witness :
    specPresentBound [97, 98, 99, 100, 101] [121, 98, 98, 98, 98] [120, 97, 120, 120, 120] :=
  (claim2_present_lower_bound [97, 98, 99, 100, 101] [121, 98, 98, 98, 98]
    [120, 97, 120, 120, 120] [[120, 97, 120, 120, 120]]).1 (by decide)

/-- Claim C3: every word kept by get_poss_words satisfies the
ABSENT-letter upper bound, and every candidate exceeding it is excluded. -/
theorem claim3_absent_upper_bound (guess colors word : List ℕ) (words : List (List ℕ)) :
    (word ∈ get_poss_words guess colors words → specAbsentBound guess colors word) ∧
    (word ∈ words → ¬ specAbsentBound guess colors word →
      word ∉ get_poss_words guess colors words) := by
  constructor
  · intro hw
    exact (blackOk_iff guess colors word).mp (mem_get_poss_words.mp hw).2.2.2.2
  · intro _ hnb hw
    exact hnb ((blackOk_iff guess colors word).mp (mem_get_poss_words.mp hw).2.2.2.2)

set_option maxRecDepth 4000 in
/-- Witness for claim C3 at the same concrete observation. -/
theorem claim3_witness :
    specAbsentBound [97, 98, 99, 100, 101] [121, 98, 98, 98, 98] [120, 97, 120, 120, 120] :=
  (claim3_absent_upper_bound [97, 98, 99, 100, 101] [121, 98, 98, 98, 98]
    [120, 97, 120, 120, 120] [[120, 97, 120, 120, 120]]).1 (by decide)

lemma all_congr_bool {α : Type} {l : List α} {p q : α → Bool}
    (h : ∀ x ∈ l, p x = q x) : l.all p = l.all q := by
  induction l with
  | nil => rfl
  | cons a t ih =>
      rw [List.all_cons, List.all_cons, h a (List.mem_cons_self a t),
        ih fun x hx => h x (List.mem_cons_of_mem a hx)]

/-- Claim C4, amended: get_poss_words performs no validation of the
feedback alphabet.  With every feedback symbol outside the three-valued
alphabet, it silently returns the subset of words differing from the
guess at every position: only the positional-mismatch rule applies. -/
theorem claim4_no_validation (guess colors : List ℕ) (words : List (List ℕ))
    (h : ∀ x ∈ colors, x ≠ G_UNICODE ∧ x ≠ Y_UNICODE ∧ x ≠ B_UNICODE) :
    get_poss_words guess colors words =
      words.filter fun w => (colors.zip (guess.zip w)).all fun p => !(p.2.1 == p.2.2) := by
  rw [get_poss_words_eq_filter]
  refine List.filter_congr fun w _ => ?_
  unfold keepPred
  have hgr : greenOk guess colors w = true := by
    unfold greenOk
    rw [List.all_eq_true]
    intro p hp
    have h1 := (h p.1 (List.of_mem_zip hp).1).1
    simp [h1]
  have hy : yellowOk guess colors w = true := by
    unfold yellowOk
    rw [yellow_letters_of_no_yellow fun x hx => (h x hx).2.1]
    rfl
  have hb : blackOk guess colors w = true := by
    unfold blackOk
    rw [black_letters_of_no_black fun x hx => (h x hx).2.2]
    rfl
  rw [hgr, hy, hb, Bool.true_and, Bool.and_true, Bool.and_true]
  unfold notAtIndexOk
  refine all_congr_bool fun p hp => ?_
  have h1 := (h p.1 (List.of_mem_zip hp).1).1
  have h2 : (p.1 == G_UNICODE) = false := by simp [h1]
  rw [h2, Bool.false_or]

/-- Counterexample for claim C4: the feedback string "xxxxx" lies outside
the three-valued alphabet, yet filtering succeeds silently and returns a
non-empty filtered set instead of failing. -/
theorem claim4_counterexample :
    get_poss_words [97, 97, 97, 97, 97] [120, 120, 120, 120, 120]
        [[98, 98, 98, 98, 98], [97, 98, 98, 98, 98]] = [[98, 98, 98, 98, 98]] ∧
      [[98, 98, 98, 98, 98]] ≠ ([] : List (List ℕ)) := by
  exact ⟨by decide, by decide⟩

/-- Witness for claim C4's amended statement at the same invalid feedback. -/
theorem claim4_witness :
    get_poss_words [97, 97, 97, 97, 97] [120, 120, 120, 120, 120]
        [[98, 98, 98, 98, 98], [97, 98, 98, 98, 98]] =
      [[98, 98, 98, 98, 98], [97, 98, 98, 98, 98]].filter fun w =>
        (([120, 120, 120, 120, 120] : List ℕ).zip (([97, 97, 97, 97, 97] : List ℕ).zip w)).all
          fun p => !(p.2.1 == p.2.2) :=
  claim4_no_validation _ _ _ (by decide)

/-- The letters of the answer side of a guess/answer pairing at the
positions where the two words disagree. -/
def nonGreenSnd (L : List (ℕ × ℕ)) : List ℕ :=
  (L.filter fun p => !(p.1 == p.2)).map Prod.snd

/-- Modelled from the spec: the game's color-assignment rule for one
guess/answer pair (missing from src, which only consumes colors typed by
the user).  Exact matches are green; a non-matching guess letter is
yellow while unmatched copies of it remain in the answer, else black. -/
def fbAux : List (ℕ × ℕ) → List ℕ → List ℕ
  | [], _ => []
  | (gi, wi) :: rest, avail =>
      if gi = wi then G_UNICODE :: fbAux rest avail
      else if gi ∈ avail then Y_UNICODE :: fbAux rest (avail.erase gi)
      else B_UNICODE :: fbAux rest avail

/-- The feedback the game would produce for a guess against an answer. -/
def wordleFeedback (guess word : List ℕ) : List ℕ :=
  fbAux (guess.zip word) (nonGreenSnd (guess.zip word))

lemma fbAux_length : ∀ (L : List (ℕ × ℕ)) (a : List ℕ), (fbAux L a).length = L.length := by
  intro L
  induction L with
  | nil => intro a; rfl
  | cons p t ih =>
      intro a
      obtain ⟨gi, wi⟩ := p
      unfold fbAux
      by_cases hgw : gi = wi
      · simp [hgw, ih]
      · by_cases hmem : gi ∈ a <;> simp [hgw, hmem, ih]

lemma fbAux_mem_colors : ∀ (L : List (ℕ × ℕ)) (a : List ℕ), ∀ x ∈ fbAux L a,
    x = G_UNICODE ∨ x = Y_UNICODE ∨ x = B_UNICODE := by
  intro L
  induction L with
  | nil => intro a x hx; simp [fbAux] at hx
  | cons p t ih =>
      intro a x hx
      obtain ⟨gi, wi⟩ := p
      unfold fbAux at hx
      by_cases hgw : gi = wi
      · rw [if_pos hgw] at hx
        rcases List.mem_cons.mp hx with rfl | hx
        · exact Or.inl rfl
        · exact ih a x hx
      · rw [if_neg hgw] at hx
        by_cases hmem : gi ∈ a
        · rw [if_pos hmem] at hx
          rcases List.mem_cons.mp hx with rfl | hx
          · exact Or.inr (Or.inl rfl)
          · exact ih _ x hx
        · rw [if_neg hmem] at hx
          rcases List.mem_cons.mp hx with rfl | hx
          · exact Or.inr (Or.inr rfl)
          · exact ih a x hx

lemma mem_colorTuples : ∀ (n : ℕ) (l : List ℕ), l.length = n →
    (∀ x ∈ l, x = G_UNICODE ∨ x = Y_UNICODE ∨ x = B_UNICODE) → l ∈ colorTuples n := by
  intro n
  induction n with
  | zero =>
      intro l hl _
      rw [List.length_eq_zero.mp hl]
      simp [colorTuples]
  | succ n ih =>
      intro l hl hmem
      match l with
      | [] => simp at hl
      | x :: t =>
          unfold colorTuples
          rw [List.mem_flatMap]
          refine ⟨x, ?_, ?_⟩
          · rcases hmem x (List.mem_cons_self x t) with h | h | h <;> simp [h]
          · rw [List.mem_map]
            refine ⟨t, ih t (by simpa using hl) ?_, rfl⟩
            intro y hy
            exact hmem y (List.mem_cons_of_mem x hy)

lemma greenOk_fbAux : ∀ (L : List (ℕ × ℕ)) (a : List ℕ),
    ((fbAux L a).zip L).all (fun p => !(p.1 == G_UNICODE) || (p.2.1 == p.2.2)) = true := by
  intro L
  induction L with
  | nil => intro a; rfl
  | cons p t ih =>
      intro a
      obtain ⟨gi, wi⟩ := p
      unfold fbAux
      by_cases hgw : gi = wi
      · rw [if_pos hgw]
        rw [List.zip_cons_cons, List.all_cons, ih a]
        simp [hgw]
      · rw [if_neg hgw]
        by_cases hmem : gi ∈ a
        · rw [if_pos hmem, List.zip_cons_cons, List.all_cons, ih]
          simp [Y_UNICODE, G_UNICODE]
        · rw [if_neg hmem, List.zip_cons_cons, List.all_cons, ih]
          simp [B_UNICODE, G_UNICODE]

lemma notAtIndexOk_fbAux : ∀ (L : List (ℕ × ℕ)) (a : List ℕ),
    ((fbAux L a).zip L).all (fun p => (p.1 == G_UNICODE) || !(p.2.1 == p.2.2)) = true := by
  intro L
  induction L with
  | nil => intro a; rfl
  | cons p t ih =>
      intro a
      obtain ⟨gi, wi⟩ := p
      unfold fbAux
      by_cases hgw : gi = wi
      · rw [if_pos hgw, List.zip_cons_cons, List.all_cons, ih a]
        simp
      · rw [if_neg hgw]
        by_cases hmem : gi ∈ a
        · rw [if_pos hmem, List.zip_cons_cons, List.all_cons, ih]
          simp [hgw]
        · rw [if_neg hmem, List.zip_cons_cons, List.all_cons, ih]
          simp [hgw]

lemma yellow_letters_cons (g0 : ℕ) (g : List ℕ) (c0 : ℕ) (cs : List ℕ) :
    yellow_letters (g0 :: g) (c0 :: cs) =
      if c0 == Y_UNICODE then g0 :: yellow_letters g cs else yellow_letters g cs := by
  unfold yellow_letters
  rw [List.zip_cons_cons, List.filter_cons]
  cases h : (c0 == Y_UNICODE) <;> simp [h]

lemma black_letters_cons (g0 : ℕ) (g : List ℕ) (c0 : ℕ) (cs : List ℕ) :
    black_letters (g0 :: g) (c0 :: cs) =
      if c0 == B_UNICODE then g0 :: black_letters g cs else black_letters g cs := by
  unfold black_letters
  rw [List.zip_cons_cons, List.filter_cons]
  cases h : (c0 == B_UNICODE) <;> simp [h]

lemma notGreenLetters_cons (w0 : ℕ) (w : List ℕ) (c0 : ℕ) (cs : List ℕ) :
    notGreenLetters (c0 :: cs) (w0 :: w) =
      if c0 == G_UNICODE then notGreenLetters cs w else w0 :: notGreenLetters cs w := by
  unfold notGreenLetters
  rw [List.zip_cons_cons, List.filter_cons]
  cases h : (c0 == G_UNICODE) <;> simp [h]

lemma nonGreenSnd_cons (gi wi : ℕ) (t : List (ℕ × ℕ)) :
    nonGreenSnd ((gi, wi) :: t) =
      if gi == wi then nonGreenSnd t else wi :: nonGreenSnd t := by
  unfold nonGreenSnd
  rw [List.filter_cons]
  cases h : (gi == wi) <;> simp [h]

lemma notGreenLetters_fbAux : ∀ (L : List (ℕ × ℕ)) (a : List ℕ),
    notGreenLetters (fbAux L a) (L.map Prod.snd) = nonGreenSnd L := by
  intro L
  induction L with
  | nil => intro a; rfl
  | cons p t ih =>
      intro a
      obtain ⟨gi, wi⟩ := p
      rw [List.map_cons, nonGreenSnd_cons]
      unfold fbAux
      by_cases hgw : gi = wi
      · rw [if_pos hgw, notGreenLetters_cons,
          show (G_UNICODE == G_UNICODE) = true from rfl, if_pos rfl,
          show (gi == wi) = true from beq_iff_eq.mpr hgw, if_pos rfl]
        exact ih a
      · have hne : (gi == wi) = false := beq_eq_false_iff_ne.mpr hgw
        rw [if_neg hgw, hne]
        by_cases hmem : gi ∈ a
        · rw [if_pos hmem, notGreenLetters_cons,
            show (Y_UNICODE == G_UNICODE) = false from rfl]
          simp only [Bool.false_eq_true, if_false]
          rw [ih (a.erase gi)]
        · rw [if_neg hmem, notGreenLetters_cons,
            show (B_UNICODE == G_UNICODE) = false from rfl]
          simp only [Bool.false_eq_true, if_false]
          rw [ih a]

lemma yellow_count_fbAux : ∀ (L : List (ℕ × ℕ)) (a : List ℕ) (c : ℕ),
    List.count c (yellow_letters (L.map Prod.fst) (fbAux L a)) ≤ List.count c a := by
  intro L
  induction L with
  | nil => intro a c; simp [yellow_letters, fbAux]
  | cons p t ih =>
      intro a c
      obtain ⟨gi, wi⟩ := p
      rw [List.map_cons]
      unfold fbAux
      by_cases hgw : gi = wi
      · rw [if_pos hgw, yellow_letters_cons,
          show (G_UNICODE == Y_UNICODE) = false from rfl]
        simp only [Bool.false_eq_true, if_false]
        exact ih a c
      · rw [if_neg hgw]
        by_cases hmem : gi ∈ a
        · rw [if_pos hmem, yellow_letters_cons,
            show (Y_UNICODE == Y_UNICODE) = true from rfl, if_pos rfl, List.count_cons]
          by_cases hc : gi = c
          · subst hc
            have h1 := ih (a.erase gi) gi
            rw [List.count_erase_self] at h1
            have h2 : 1 ≤ List.count gi a := List.one_le_count_iff.mpr hmem
            simp only [beq_self_eq_true, if_true]
            omega
          · have h1 := ih (a.erase gi) c
            rw [List.count_erase_of_ne (fun h => hc h.symm)] at h1
            have h2 : (gi == c) = false := beq_eq_false_iff_ne.mpr hc
            simp only [h2, Bool.false_eq_true, if_false]
            omega
        · rw [if_neg hmem, yellow_letters_cons,
            show (B_UNICODE == Y_UNICODE) = false from rfl]
          simp only [Bool.false_eq_true, if_false]
          exact ih a c

lemma black_le_yellow_fbAux : ∀ (L : List (ℕ × ℕ)) (a : List ℕ) (c : ℕ),
    c ∈ black_letters (L.map Prod.fst) (fbAux L a) →
      List.count c a ≤ List.count c (yellow_letters (L.map Prod.fst) (fbAux L a)) := by
  intro L
  induction L with
  | nil => intro a c hc; simp [black_letters, fbAux] at hc
  | cons p t ih =>
      intro a c
      obtain ⟨gi, wi⟩ := p
      rw [List.map_cons]
      unfold fbAux
      by_cases hgw : gi = wi
      · rw [if_pos hgw, black_letters_cons, yellow_letters_cons,
          show (G_UNICODE == B_UNICODE) = false from rfl,
          show (G_UNICODE == Y_UNICODE) = false from rfl]
        simp only [Bool.false_eq_true, if_false]
        exact ih a c
      · rw [if_neg hgw]
        by_cases hmem : gi ∈ a
        · rw [if_pos hmem, black_letters_cons, yellow_letters_cons,
            show (Y_UNICODE == B_UNICODE) = false from rfl,
            show (Y_UNICODE == Y_UNICODE) = true from rfl, if_pos rfl]
          simp only [Bool.false_eq_true, if_false]
          intro hc
          rw [List.count_cons]
          by_cases hgc : gi = c
          · subst hgc
            have h1 := ih (a.erase gi) gi hc
            rw [List.count_erase_self] at h1
            have h2 : 1 ≤ List.count gi a := List.one_le_count_iff.mpr hmem
            simp only [beq_self_eq_true, if_true]
            omega
          · have h1 := ih (a.erase gi) c hc
            rw [List.count_erase_of_ne (fun h => hgc h.symm)] at h1
            have h2 : (gi == c) = false := beq_eq_false_iff_ne.mpr hgc
            simp only [h2, Bool.false_eq_true, if_false]
            omega
        · rw [if_neg hmem, black_letters_cons, yellow_letters_cons,
            show (B_UNICODE == B_UNICODE) = true from rfl, if_pos rfl,
            show (B_UNICODE == Y_UNICODE) = false from rfl]
          simp only [Bool.false_eq_true, if_false]
          intro hc
          rcases List.mem_cons.mp hc with rfl | hc
          · rw [List.count_eq_zero_of_not_mem hmem]
            exact Nat.zero_le _
          · exact ih a c hc

lemma keepPred_feedback (g w : List ℕ) (h : g.length = w.length) :
    keepPred g (wordleFeedback g w) w = true := by
  have h1 : g.length ≤ w.length := le_of_eq h
  have h2 : w.length ≤ g.length := le_of_eq h.symm
  unfold wordleFeedback keepPred
  set L := g.zip w with hLdef
  have hfst : L.map Prod.fst = g := List.map_fst_zip g w h1
  have hsnd : L.map Prod.snd = w := List.map_snd_zip g w h2
  rw [Bool.and_eq_true, Bool.and_eq_true, Bool.and_eq_true]
  refine ⟨⟨⟨?_, ?_⟩, ?_⟩, ?_⟩
  · unfold greenOk
    exact greenOk_fbAux L (nonGreenSnd L)
  · unfold notAtIndexOk
    exact notAtIndexOk_fbAux L (nonGreenSnd L)
  · rw [yellowOk_iff]
    intro c hc
    rw [← hfst] at hc ⊢
    rw [← hsnd, notGreenLetters_fbAux]
    exact yellow_count_fbAux L (nonGreenSnd L) c
  · rw [blackOk_iff]
    intro c hc
    rw [← hfst] at hc ⊢
    rw [← hsnd, notGreenLetters_fbAux]
    exact black_le_yellow_fbAux L (nonGreenSnd L) c hc

lemma wordleFeedback_mem_POSSIBLE_COLORS {g w : List ℕ} (hg : g.length = 5)
    (hw : w.length = 5) : wordleFeedback g w ∈ POSSIBLE_COLORS := by
  apply mem_colorTuples
  · unfold wordleFeedback
    rw [fbAux_length, List.length_zip, hg, hw]
    rfl
  · intro x hx
    exact fbAux_mem_colors _ _ x hx

lemma sum_map_add_distrib {α : Type} (l : List α) (f g : α → ℕ) :
    (l.map fun x => f x + g x).sum = (l.map f).sum + (l.map g).sum := by
  induction l with
  | nil => rfl
  | cons a t ih => simp only [List.map_cons, List.sum_cons, ih]; omega

lemma sum_map_ite_eq_countP {α : Type} (l : List α) (p : α → Bool) :
    (l.map fun x => if p x = true then 1 else 0).sum = l.countP p := by
  induction l with
  | nil => rfl
  | cons a t ih => simp only [List.map_cons, List.sum_cons, List.countP_cons, ih]; omega

lemma sum_map_one {α : Type} (l : List α) : (l.map fun _ => 1).sum = l.length := by
  induction l with
  | nil => rfl
  | cons a t ih => simp only [List.map_cons, List.sum_cons, ih, List.length_cons]; omega

lemma sum_countP_exchange {α β : Type} (P : List α) (C : List β) (r : α → β → Bool) :
    (P.map fun f => List.countP (r f) C).sum =
      (C.map fun w => List.countP (fun f => r f w) P).sum := by
  induction C with
  | nil =>
      simp only [List.countP_nil, List.map_nil, List.sum_nil]
      rw [show (fun f : α => 0) = fun _ : α => 0 * 1 from by funext f; omega]
      induction P with
      | nil => rfl
      | cons a t ih => simp [ih]
  | cons w C ih =>
      simp only [List.countP_cons, List.map_cons, List.sum_cons]
      rw [sum_map_add_distrib, ih, sum_map_ite_eq_countP]
      omega

set_option maxRecDepth 4000 in
/-- Claim C1, amended: the sizes of the 243 filtered sets add up to at
least the candidate-set size (each candidate is consistent with at least
one feedback pattern); equality can fail, so only the lower bound holds. -/
theorem claim1_sum_ge (guess : List ℕ) (C : List (List ℕ)) (hg : guess.length = 5)
    (hC : ∀ w ∈ C, w.length = 5) :
    C.length ≤ (POSSIBLE_COLORS.map fun colors => (get_poss_words guess colors C).length).sum := by
  have h1 : (POSSIBLE_COLORS.map fun colors => (get_poss_words guess colors C).length)
      = POSSIBLE_COLORS.map fun colors => List.countP (keepPred guess colors) C := by
    refine List.map_congr_left fun colors _ => ?_
    rw [get_poss_words_eq_filter, List.countP_eq_length_filter]
  rw [h1, sum_countP_exchange]
  have h2 : ∀ w ∈ C, 1 ≤ List.countP (fun colors => keepPred guess colors w) POSSIBLE_COLORS := by
    intro w hw
    have hmem := wordleFeedback_mem_POSSIBLE_COLORS hg (hC w hw)
    have hkeep := keepPred_feedback guess w (by rw [hg, hC w hw])
    exact List.countP_pos_iff.mpr ⟨wordleFeedback guess w, hmem, hkeep⟩
  calc C.length = (C.map fun _ => 1).sum := (sum_map_one C).symm
    _ ≤ _ := List.sum_le_sum h2

set_option maxRecDepth 10000 in
/-- Counterexample for claim C1: for the guess "aabbb" and the singleton
candidate set containing "cdaef", the word is consistent with two
feedback patterns (ybbbb and bybbb), so the sizes add up to 2, not 1. -/
theorem claim1_counterexample :
    (POSSIBLE_COLORS.map fun colors =>
        (get_poss_words [97, 97, 98, 98, 98] colors [[99, 100, 97, 101, 102]]).length).sum = 2 ∧
      ([[99, 100, 97, 101, 102]] : List (List ℕ)).length = 1 :=
  ⟨by decide, rfl⟩

/-- Witness for claim C1's amended lower bound at a concrete input. -/
theorem claim1_witness :
    ([[99, 100, 97, 101, 102]] : List (List ℕ)).length ≤
      (POSSIBLE_COLORS.map fun colors =>
        (get_poss_words [97, 97, 98, 98, 98] colors [[99, 100, 97, 101, 102]]).length).sum :=
  claim1_sum_ge [97, 97, 98, 98, 98] [[99, 100, 97, 101, 102]] (by decide) (by decide)

lemma calc_fold (guess : List ℕ) (words : List (List ℕ)) (l : List (List ℕ)) (init : ℚ) :
    l.foldl (fun acc colors =>
        acc + ((get_poss_words guess colors words).length : ℚ) / (words.length : ℚ) *
          ((get_poss_words guess colors words).length : ℚ)) init
      = init + (l.map fun colors =>
          ((get_poss_words guess colors words).length : ℚ) / (words.length : ℚ) *
            ((get_poss_words guess colors words).length : ℚ)).sum := by
  induction l generalizing init with
  | nil => simp
  | cons a t ih => rw [List.foldl_cons, ih, List.map_cons, List.sum_cons]; ring

lemma calc_guess_entropy_eq_sum (guess : List ℕ) (words : List (List ℕ)) (h : words ≠ []) :
    calc_guess_entropy guess words =
      some ((POSSIBLE_COLORS.map fun colors =>
        ((get_poss_words guess colors words).length : ℚ) / (words.length : ℚ) *
          ((get_poss_words guess colors words).length : ℚ)).sum) := by
  unfold calc_guess_entropy
  rw [if_neg (by simpa using h), calc_fold, zero_add]

set_option maxRecDepth 10000 in
/-- Claim C6: the score of a guess is the sum over all 243 feedback
patterns of (n_f / number of candidates) * n_f, the full enumeration with
no pattern special-cased away. -/
theorem claim6_entropy_formula (guess : List ℕ) (words : List (List ℕ)) (h : words ≠ []) :
    calc_guess_entropy guess words =
      some ((POSSIBLE_COLORS.map fun colors =>
        ((get_poss_words guess colors words).length : ℚ) / (words.length : ℚ) *
          ((get_poss_words guess colors words).length : ℚ)).sum) ∧
      POSSIBLE_COLORS.length = 243 :=
  ⟨calc_guess_entropy_eq_sum guess words h, by decide⟩

/-- Witness for claim C6 at a concrete one-word candidate set. -/
theorem claim6_witness :
    calc_guess_entropy [97, 97, 97, 97, 97] [[98, 98, 98, 98, 98]] =
      some ((POSSIBLE_COLORS.map fun colors =>
        ((get_poss_words [97, 97, 97, 97, 97] colors [[98, 98, 98, 98, 98]]).length : ℚ) /
            (([[98, 98, 98, 98, 98]] : List (List ℕ)).length : ℚ) *
          ((get_poss_words [97, 97, 97, 97, 97] colors [[98, 98, 98, 98, 98]]).length : ℚ)).sum) ∧
      POSSIBLE_COLORS.length = 243 :=
  claim6_entropy_formula [97, 97, 97, 97, 97] [[98, 98, 98, 98, 98]] (by decide)

/-- Claim C10: on a non-empty candidate set the score exists and is a
non-negative rational; on the empty set the division by zero aborts the
computation (ZeroDivisionError, modelled as none). -/
theorem claim10_zero_division (guess : List ℕ) (words : List (List ℕ)) :
    (words ≠ [] → ∃ q, calc_guess_entropy guess words = some q ∧ 0 ≤ q) ∧
      calc_guess_entropy guess [] = none := by
  constructor
  · intro h
    rw [calc_guess_entropy_eq_sum guess words h]
    refine ⟨_, rfl, ?_⟩
    apply List.sum_nonneg
    intro x hx
    obtain ⟨colors, _, rfl⟩ := List.mem_map.mp hx
    positivity
  · rfl

/-- Witness for claim C10's non-empty branch at a concrete input. -/
theorem claim10_witness :
    ∃ q, calc_guess_entropy [97, 97, 97, 97, 97] [[98, 98, 98, 98, 98]] = some q ∧ 0 ≤ q :=
  (claim10_zero_division [97, 97, 97, 97, 97] [[98, 98, 98, 98, 98]]).1 (by decide)

lemma optionList_isSome : ∀ {l : List (Option ℚ)}, (∀ x ∈ l, x.isSome = true) →
    ∃ r, optionList l = some r ∧ r.length = l.length := by
  intro l
  induction l with
  | nil => intro _; exact ⟨[], rfl, rfl⟩
  | cons a t ih =>
      intro h
      have ht : ∀ x ∈ t, x.isSome = true := fun x hx => h x (List.mem_cons_of_mem a hx)
      obtain ⟨q, rfl⟩ := Option.isSome_iff_exists.mp (h a (List.mem_cons_self a t))
      obtain ⟨r, hr, hlen⟩ := ih ht
      refine ⟨q :: r, ?_, by simp [hlen]⟩
      unfold optionList
      rw [hr]
      rfl

lemma calc_isSome (guess : List ℕ) {words : List (List ℕ)} (h : words ≠ []) :
    (calc_guess_entropy guess words).isSome = true := by
  unfold calc_guess_entropy
  rw [if_neg (by simpa using h)]
  rfl

lemma getD_range_map {α : Type} (xs : List α) (d : α) :
    (List.range xs.length).map (fun i => xs.getD i d) = xs := by
  induction xs with
  | nil => rfl
  | cons a t ih =>
      rw [List.length_cons, List.range_succ_eq_map, List.map_cons, List.map_map,
        List.getD_cons_zero]
      have hcomp : ((fun i => (a :: t).getD i d) ∘ Nat.succ) = fun i => t.getD i d := by
        funext i
        simp [Function.comp, List.getD_cons_succ]
      rw [hcomp, ih]

lemma enum_getD {α : Type} {xs : List α} {d : α} {p : ℕ × α} (hp : p ∈ xs.enum) :
    xs.getD p.1 d = p.2 := by
  obtain ⟨i, x⟩ := p
  have h := List.mem_enumFrom (show (i, x) ∈ List.enumFrom 0 xs from hp)
  obtain ⟨-, h2, h3⟩ := h
  rw [List.getD_eq_getElem?_getD, List.getElem?_eq_getElem (by simpa using h2)]
  simp only [Nat.sub_zero] at h3
  simp [h3]

lemma sorted_map_snd {l : List (ℕ × ℚ)} (h : List.Sorted scoreLe l) :
    List.Sorted (· ≤ ·) (l.map Prod.snd) := by
  exact List.pairwise_map.mpr h

/-- Claim C5, amended: rank_words succeeds on every word list and returns
one entry per input word (the word component is a permutation of the
input), with scores sorted ascending; ties are kept in input-array order
by the stable argsort model rather than broken lexically. -/
theorem claim5_sorted_ranking (words : List (List ℕ)) :
    ∃ r, rank_words words = some r ∧ r.1.Perm words ∧ List.Sorted (· ≤ ·) r.2 ∧
      r.1.length = words.length := by
  by_cases hw : words = []
  · subst hw
    exact ⟨([], []), rfl, List.Perm.refl [], List.sorted_nil, rfl⟩
  · have hsome : ∀ x ∈ words.map fun g => calc_guess_entropy g words, x.isSome = true := by
      intro x hx
      obtain ⟨g, _, rfl⟩ := List.mem_map.mp hx
      exact calc_isSome g hw
    obtain ⟨pred, hpred, hplen⟩ := optionList_isSome hsome
    rw [List.length_map] at hplen
    have hrw : rank_words words = some ((argsort pred).map (fun i => words.getD i []),
        (argsort pred).map (fun i => pred.getD i 0)) := by
      unfold rank_words
      rw [hpred]
    have hperm : ((argsort pred).map (fun i => words.getD i [])).Perm words := by
      unfold argsort
      rw [List.map_map]
      refine ((List.perm_insertionSort scoreLe pred.enum).map _).trans ?_
      rw [← List.map_map, List.enum_map_fst, hplen, getD_range_map]
    refine ⟨_, hrw, hperm, ?_, hperm.length_eq⟩
    have hmap : ((pred.enum.insertionSort scoreLe).map ((fun i => pred.getD i 0) ∘ Prod.fst))
        = (pred.enum.insertionSort scoreLe).map Prod.snd := by
      refine List.map_congr_left fun p hp => ?_
      have hpmem : p ∈ pred.enum := ((List.perm_insertionSort scoreLe pred.enum).mem_iff).mp hp
      simpa using enum_getD hpmem
    show List.Sorted (· ≤ ·) ((argsort pred).map fun i => pred.getD i 0)
    unfold argsort
    rw [List.map_map, hmap]
    exact sorted_map_snd (List.sorted_insertionSort scoreLe pred.enum)

set_option maxRecDepth 10000 in
/-- Counterexample for claim C5: over the candidate list ["bbbbb",
"aaaaa"] both guesses score the same (both score slots below hold the
score of "bbbbb"), yet the ranking keeps the input order "bbbbb" before
"aaaaa" although "aaaaa" precedes "bbbbb" lexically, so ties are not
broken by the guess word's natural lexical order. -/
theorem claim5_counterexample :
    rank_words [[98, 98, 98, 98, 98], [97, 97, 97, 97, 97]] =
      some ([[98, 98, 98, 98, 98], [97, 97, 97, 97, 97]],
        [(calc_guess_entropy [98, 98, 98, 98, 98]
            [[98, 98, 98, 98, 98], [97, 97, 97, 97, 97]]).getD 0,
          (calc_guess_entropy [98, 98, 98, 98, 98]
            [[98, 98, 98, 98, 98], [97, 97, 97, 97, 97]]).getD 0]) ∧
      ([97, 97, 97, 97, 97] : List ℕ) < [98, 98, 98, 98, 98] := by
  constructor
  · have hlen : ∀ f ∈ POSSIBLE_COLORS,
        (get_poss_words [97, 97, 97, 97, 97] f
          [[98, 98, 98, 98, 98], [97, 97, 97, 97, 97]]).length =
        (get_poss_words [98, 98, 98, 98, 98] f
          [[98, 98, 98, 98, 98], [97, 97, 97, 97, 97]]).length := by
      have hall : POSSIBLE_COLORS.all (fun f =>
          (get_poss_words [97, 97, 97, 97, 97] f
            [[98, 98, 98, 98, 98], [97, 97, 97, 97, 97]]).length ==
          (get_poss_words [98, 98, 98, 98, 98] f
            [[98, 98, 98, 98, 98], [97, 97, 97, 97, 97]]).length) = true := by decide
      intro f hf
      simpa using List.all_eq_true.mp hall f hf
    have hEq : calc_guess_entropy [97, 97, 97, 97, 97]
          [[98, 98, 98, 98, 98], [97, 97, 97, 97, 97]] =
        calc_guess_entropy [98, 98, 98, 98, 98]
          [[98, 98, 98, 98, 98], [97, 97, 97, 97, 97]] := by
      rw [calc_guess_entropy_eq_sum _ _ (by decide), calc_guess_entropy_eq_sum _ _ (by decide)]
      refine congrArg some (congrArg List.sum (List.map_congr_left fun f hf => ?_))
      rw [hlen f hf]
    obtain ⟨q, hq⟩ : ∃ q, calc_guess_entropy [98, 98, 98, 98, 98]
        [[98, 98, 98, 98, 98], [97, 97, 97, 97, 97]] = some q :=
      ⟨_, calc_guess_entropy_eq_sum _ _ (by decide)⟩
    unfold rank_words
    rw [show ([[98, 98, 98, 98, 98], [97, 97, 97, 97, 97]] : List (List ℕ)).map
          (fun g => calc_guess_entropy g [[98, 98, 98, 98, 98], [97, 97, 97, 97, 97]]) =
        [calc_guess_entropy [98, 98, 98, 98, 98] [[98, 98, 98, 98, 98], [97, 97, 97, 97, 97]],
          calc_guess_entropy [97, 97, 97, 97, 97]
            [[98, 98, 98, 98, 98], [97, 97, 97, 97, 97]]] from rfl]
    rw [hEq, hq]
    have hopt : optionList [some q, some q] = some [q, q] := rfl
    rw [hopt]
    show some ((argsort [q, q]).map
          (fun i => ([[98, 98, 98, 98, 98], [97, 97, 97, 97, 97]] : List (List ℕ)).getD i []),
        (argsort [q, q]).map fun i => ([q, q] : List ℚ).getD i 0) = _
    have hargs : argsort [q, q] = [0, 1] := by
      unfold argsort
      have h1 : List.insertionSort scoreLe [(0, q), (1, q)] =
          if scoreLe (0, q) (1, q) then [(0, q), (1, q)] else [(1, q), (0, q)] := rfl
      have h2 : ([q, q] : List ℚ).enum = [(0, q), (1, q)] := rfl
      rw [h2, h1, if_pos (show scoreLe (0, q) (1, q) from le_refl q)]
      rfl
    rw [hargs]
    rfl
  · decide

end WordleSolver
